import Mathlib

/-!
Verification development for the `cleanup` tool (src/main.rs).

The Rust program walks a directory tree, selects "old" regular files by an
age predicate over atime/mtime/ctime, and relocates each selected file to
`dest/<uid>/<n>` where `n` comes from a per-owner atomic counter persisted
in a sled store at `dest/paths.db`.  A provenance entry mapping the escaped
destination path to the escaped original path is stored per owner, and an
audit line is written to stdout per file.  This file shallowly embeds the
relevant program pieces and proves / refutes the frozen claims about them.

Paths are modelled as their raw byte sequences (`List Nat`, each < 256),
matching the Rust code which operates on `OsStr` bytes.  The sled store is
modelled as the association lists `Ledger.counters` (the `cleanup_uids`
tree: owner id -> last assigned sequence value) and `Ledger.prov` (one tree
per owner id: escaped destination path -> escaped original path).  The
side-effecting per-file pipeline `process_file` is modelled as a pure
function from an explicit ledger state (plus oracles for the filesystem
facts it consults and the fallible syscalls it performs) to a result, a new
ledger state, and a trace of emitted effects.
-/

set_option maxHeartbeats 1000000

namespace Cleanup

/-! ## Path codec: `escape_path` (src/main.rs lines 74-96)

The Rust function wraps the output in single quotes; any byte `b` with
`b >= 0x7f || b < 0x20` switches into an ANSI-C `$'...'` segment emitting
the byte as `\ooo` (three octal digits), and a printable byte switches back
into a plain single-quoted segment.  Bytes in `0x20..0x7e` — including the
single quote itself — are pushed verbatim. -/

def octChar (n : Nat) : Char := Char.ofNat (48 + n)

/-- The `\{:03o}` escape for one byte (bytes are < 256, so three octal digits). -/
def oct3 (b : Nat) : List Char :=
  ['\\', octChar (b / 64), octChar (b / 8 % 8), octChar (b % 8)]

/-- The loop body of `escape_path`: the `Bool` is the `encoding` flag. -/
def escBody : Bool → List Nat → List Char
  | _, [] => []
  | enc, b :: bs =>
    if 0x7f ≤ b ∨ b < 0x20 then
      (if enc then [] else ['\'', '$', '\'']) ++ oct3 b ++ escBody true bs
    else
      (if enc then ['\'', '\''] else []) ++ Char.ofNat b :: escBody false bs

/-- `escape_path` on the raw bytes of a path, as a character list. -/
def escChars (bs : List Nat) : List Char :=
  '\'' :: (escBody false bs ++ ['\''])

/-- `escape_path` (src/main.rs lines 74-96). -/
def escape_path (bs : List Nat) : String :=
  String.mk (escChars bs)

/-! ## POSIX shell quoting evaluator

Modelled from the spec: the claim asks that the codec output, "evaluated
under POSIX-shell quoting semantics, reproduces exactly the original byte
sequence".  `shEval` evaluates a word under those semantics: a plain
single-quoted span is literal up to the closing quote, `$'...'` is an
ANSI-C-quoted span whose `\ooo` escapes denote bytes, and outside quotes
only ordinary (non-special) characters stand for themselves; an
unterminated quote or an unsupported construct yields `none`. -/

/-- The quoting automaton's modes: outside quotes, inside a single-quoted
span, inside an ANSI-C `$'...'` span, just after a bare `$`, and one to
three characters into a `\ooo` octal escape. -/
inductive QMode where
  | out
  | single
  | dollar
  | dolS
  | esc1
  | esc2 (x : Nat)
  | esc3 (x y : Nat)

/-- Value of an octal digit character. -/
def octv (c : Char) : Option Nat :=
  if 48 ≤ c.toNat ∧ c.toNat ≤ 55 then some (c.toNat - 48) else none

/-- Characters that a POSIX shell treats as literal outside any quotes. -/
def plainOut (c : Char) : Bool :=
  c.isAlphanum || c == '/' || c == '.' || c == '_' || c == '-'

def shEval : QMode → List Char → Option (List Nat)
  | QMode.out, [] => some []
  | QMode.out, c :: r =>
    if c = '\'' then shEval QMode.single r
    else if c = '$' then shEval QMode.dolS r
    else if plainOut c && decide (c.toNat < 128) then
      (shEval QMode.out r).map (c.toNat :: ·)
    else none
  | QMode.dolS, [] => none
  | QMode.dolS, c :: r =>
    if c = '\'' then shEval QMode.dollar r else none
  | QMode.single, [] => none
  | QMode.single, c :: r =>
    if c = '\'' then shEval QMode.out r
    else if c.toNat < 128 then (shEval QMode.single r).map (c.toNat :: ·)
    else none
  | QMode.dollar, [] => none
  | QMode.dollar, c :: r =>
    if c = '\'' then shEval QMode.out r
    else if c = '\\' then shEval QMode.esc1 r
    else none
  | QMode.esc1, [] => none
  | QMode.esc1, c :: r =>
    match octv c with
    | some x => shEval (QMode.esc2 x) r
    | none => none
  | QMode.esc2 _, [] => none
  | QMode.esc2 x, c :: r =>
    match octv c with
    | some y => shEval (QMode.esc3 x y) r
    | none => none
  | QMode.esc3 _ _, [] => none
  | QMode.esc3 x y, c :: r =>
    match octv c with
    | some z => (shEval QMode.dollar r).map ((64 * x + 8 * y + z) :: ·)
    | none => none

/-! ## Timestamp formatting: `format_time` (src/main.rs lines 66-72)

`chrono`'s `Local.timestamp_opt` is a black-box collaborator; it converts a
unix timestamp to a `LocalResult` of a local datetime.  Its `%Y-%m-%d %H:%M`
formatter is modelled digit-by-digit (zero padded; `%Y` prints more than
four digits only for years ≥ 10000). -/

structure DateTimeL where
  y : Nat
  mo : Nat
  dy : Nat
  hh : Nat
  mi : Nat

inductive LocalResult where
  | none
  | single (d : DateTimeL)
  | ambiguous (a b : DateTimeL)

def digitChar (n : Nat) : Char := Char.ofNat (48 + n % 10)

def fmt2 (n : Nat) : List Char := [digitChar (n / 10), digitChar n]

def fmt4 (n : Nat) : List Char :=
  [digitChar (n / 1000), digitChar (n / 100), digitChar (n / 10), digitChar n]

def fmtY (y : Nat) : List Char :=
  if y < 10000 then fmt4 y else (toString y).data

/-- `%Y-%m-%d %H:%M` rendering of a local datetime. -/
def fmtYmdHm (d : DateTimeL) : String :=
  String.mk (fmtY d.y ++ '-' :: fmt2 d.mo ++ '-' :: fmt2 d.dy ++
    ' ' :: fmt2 d.hh ++ ':' :: fmt2 d.mi)

/-- `format_time` (src/main.rs lines 66-72), parameterised by the black-box
conversion from a unix timestamp to a local datetime. -/
def format_time (conv : Int → LocalResult) (ts : Int) : Except String String :=
  match conv ts with
  | LocalResult.none => Except.ok "Invalid date    "
  | LocalResult.single d => Except.ok (fmtYmdHm d)
  | LocalResult.ambiguous _ _ => Except.error "This should not happen (1)"

/-- Shape checker for a `YYYY-MM-DD HH:MM` string. -/
def ymdhmShape (s : List Char) : Bool :=
  match s with
  | [a, b, c, d, '-', e, f, '-', g, h, ' ', i, j, ':', k, l] =>
    a.isDigit && b.isDigit && c.isDigit && d.isDigit && e.isDigit && f.isDigit &&
    g.isDigit && h.isDigit && i.isDigit && j.isDigit && k.isDigit && l.isDigit
  | _ => false

/-! ## Run configuration and file metadata -/

/-- The fields of `CleanContext` (src/main.rs lines 54-64) that the
per-file pipeline reads, with the chrono conversion as a black-box field.
The sled trees are threaded separately as the explicit `Ledger` state. -/
structure Ctx where
  noatime : Bool
  nomtime : Bool
  noctime : Bool
  dryRun : Bool
  dest : List Nat
  cutoff : Int
  conv : Int → LocalResult

/-- The metadata fields read from a stat result. -/
structure Meta where
  atime : Int
  mtime : Int
  ctime : Int
  uid : Nat

/-! ## Age predicate (src/main.rs lines 151-160) -/

/-- The `old` computation of `process_file`: starting from `true`, each
enabled timestamp field is AND-ed with `field < cutoff`. -/
def old (ctx : Ctx) (m : Meta) : Bool :=
  let o := true
  let o := if !ctx.noatime then o && decide (m.atime < ctx.cutoff) else o
  let o := if !ctx.nomtime then o && decide (m.mtime < ctx.cutoff) else o
  if !ctx.noctime then o && decide (m.ctime < ctx.cutoff) else o

/-! ## The ledger: sled trees as association lists -/

abbrev Counters := List (Nat × Nat)
abbrev ProvTree := List (String × String)
abbrev Prov := List (Nat × ProvTree)

def lookupC : Counters → Nat → Option Nat
  | [], _ => none
  | (k, v) :: t, u => if k = u then some v else lookupC t u

def insertC : Counters → Nat → Nat → Counters
  | [], u, v => [(u, v)]
  | (k, w) :: t, u, v => if k = u then (u, v) :: t else (k, w) :: insertC t u v

/-- The `update_and_fetch` closure of src/main.rs lines 165-182: a missing
counter becomes 0, a present counter `m` becomes `m + 1` (u32 arithmetic,
hence mod `2 ^ 32`); the new value is stored and returned. -/
def nextSeq (c : Counters) (u : Nat) : Nat × Counters :=
  let n := match lookupC c u with
    | none => 0
    | some m => (m + 1) % 2 ^ 32
  (n, insertC c u n)

def treeGet : ProvTree → String → Option String
  | [], _ => none
  | (k0, v0) :: t, k => if k0 = k then some v0 else treeGet t k

/-- sled `Tree::insert`: overwrite the value at the key, or add the pair. -/
def treeIns : ProvTree → String → String → ProvTree
  | [], k, v => [(k, v)]
  | (k0, v0) :: t, k, v => if k0 = k then (k, v) :: t else (k0, v0) :: treeIns t k v

def provGet : Prov → Nat → Option ProvTree
  | [], _ => none
  | (u0, t0) :: r, u => if u0 = u then some t0 else provGet r u

/-- sled `Db::open_tree`: create the named tree if it is missing. -/
def provOpen (pr : Prov) (u : Nat) : Prov :=
  match provGet pr u with
  | some _ => pr
  | none => pr ++ [(u, [])]

def provIns : Prov → Nat → String → String → Prov
  | [], u, k, v => [(u, [(k, v)])]
  | (u0, t0) :: r, u, k, v =>
    if u0 = u then (u, treeIns t0 k v) :: r else (u0, t0) :: provIns r u k v

def provLookup (pr : Prov) (u : Nat) (k : String) : Option String :=
  match provGet pr u with
  | none => none
  | some t => treeGet t k

/-- The two sled trees of `dest/paths.db`: the `cleanup_uids` counter tree
and the per-owner provenance trees. -/
structure Ledger where
  counters : Counters
  prov : Prov

/-! ## The per-file pipeline: `process_file` (src/main.rs lines 149-217)

Each syscall the pipeline performs is recorded as an event; each fallible
syscall has a failure oracle bit in `Fails`.  The pipeline is written as
one step function per program point, in source order: sequence assignment,
bucket materialization (mkdir + lchown, skipped in dry-run or when the
bucket exists), timestamp formatting, the audit `writeln!`, `open_tree`,
the rename (skipped in dry-run), and the provenance insert. -/

inductive Event where
  | dbOpen
  | seqAssign (uid n : Nat)
  | mkdirE (p : List Nat)
  | chownE (p : List Nat) (uid : Nat)
  | audit (line : String)
  | openTreeE (uid : Nat)
  | renameE (src dst : List Nat)
  | provInsertE (uid : Nat) (key val : String)
  | flush

inductive PErr where
  | stat
  | fmt
  | mkdir
  | chown
  | audit
  | openTree
  | rename
  | insert

/-- Failure oracle for the fallible per-file operations. -/
structure Fails where
  mkdirF : Bool
  chownF : Bool
  auditF : Bool
  openTreeF : Bool
  renameF : Bool
  insertF : Bool

def noFails : Fails := ⟨false, false, false, false, false, false⟩

def renameFails : Fails := ⟨false, false, false, false, true, false⟩

/-- `Path::join` with a relative file-name component (`/` separator). -/
def joinP (p : List Nat) (s : List Nat) : List Nat := p ++ 0x2f :: s

/-- The bytes of `n.to_string()`. -/
def natBytes (n : Nat) : List Nat := (toString n).data.map Char.toNat

/-- `{:6}` formatting of the uid: right-aligned, space-padded to width 6. -/
def pad6 (n : Nat) : String :=
  let s := toString n
  if s.length < 6 then String.mk (List.replicate (6 - s.length) ' ') ++ s else s

/-- The audit line `"{}, {}, {}, {:6}, {}"` of src/main.rs lines 201-209. -/
def auditLine (a c mt : String) (uid : Nat) (ep : String) : String :=
  a ++ ", " ++ c ++ ", " ++ mt ++ ", " ++ pad6 uid ++ ", " ++ ep

structure PFOut where
  res : Except PErr Unit
  st : Ledger
  tr : List Event

/-- `path_map.insert(escape_path(&fdest), epath)?` (line 215). -/
def insertStep (f : Fails) (st : Ledger) (uid : Nat) (kd ep : String)
    (t : List Event) : PFOut :=
  if f.insertF then ⟨Except.error PErr.insert, st, t⟩
  else ⟨Except.ok (), { st with prov := provIns st.prov uid kd ep },
    t ++ [Event.provInsertE uid kd ep]⟩

/-- `if !ctx.dry_run { std::fs::rename(fpath, &fdest)?; }` (lines 212-214). -/
def renameStep (dry : Bool) (f : Fails) (fpath fdest : List Nat) (st : Ledger)
    (uid : Nat) (kd ep : String) (t : List Event) : PFOut :=
  if dry then insertStep f st uid kd ep t
  else if f.renameF then ⟨Except.error PErr.rename, st, t⟩
  else insertStep f st uid kd ep (t ++ [Event.renameE fpath fdest])

/-- `ctx.paths_db.open_tree(uid.to_le_bytes())?` (line 211). -/
def openTreeStep (dry : Bool) (f : Fails) (fpath fdest : List Nat) (st : Ledger)
    (uid : Nat) (kd ep : String) (t : List Event) : PFOut :=
  if f.openTreeF then ⟨Except.error PErr.openTree, st, t⟩
  else renameStep dry f fpath fdest { st with prov := provOpen st.prov uid } uid kd ep
    (t ++ [Event.openTreeE uid])

/-- Lines 191-210: compute `fdest`, `epath`, format the three timestamps
(any formatting error aborts the file), then the audit `writeln!`. -/
def auditStep (ctx : Ctx) (f : Fails) (m : Meta) (fpath fdest : List Nat)
    (st : Ledger) (t : List Event) : PFOut :=
  let ep := escape_path fpath
  let kd := escape_path fdest
  match format_time ctx.conv m.atime, format_time ctx.conv m.ctime,
      format_time ctx.conv m.mtime with
  | Except.ok a, Except.ok c, Except.ok mt =>
    if f.auditF then ⟨Except.error PErr.audit, st, t⟩
    else openTreeStep ctx.dryRun f fpath fdest st m.uid kd ep
      (t ++ [Event.audit (auditLine a c mt m.uid ep)])
  | _, _, _ => ⟨Except.error PErr.fmt, st, t⟩

/-- Lines 183-190: `if !udest.is_dir() && !ctx.dry_run { create(mode 700)?;
lchown(uid)?; }`. -/
def bucketStep (ctx : Ctx) (f : Fails) (m : Meta) (fpath : List Nat)
    (udestExists : Bool) (st : Ledger) (n : Nat) (t : List Event) : PFOut :=
  let udest := joinP ctx.dest (natBytes m.uid)
  let fdest := joinP udest (natBytes n)
  if !udestExists && !ctx.dryRun then
    if f.mkdirF then ⟨Except.error PErr.mkdir, st, t⟩
    else if f.chownF then ⟨Except.error PErr.chown, st, t ++ [Event.mkdirE udest]⟩
    else auditStep ctx f m fpath fdest st
      (t ++ [Event.mkdirE udest, Event.chownE udest m.uid])
  else auditStep ctx f m fpath fdest st t

/-- `process_file` (src/main.rs lines 149-217).  `meta = none` models a
failing `ent.metadata()?`; `udestExists` is the `udest.is_dir()` oracle. -/
def processFile (ctx : Ctx) (meta : Option Meta) (fpath : List Nat)
    (udestExists : Bool) (f : Fails) (st : Ledger) : PFOut :=
  match meta with
  | none => ⟨Except.error PErr.stat, st, []⟩
  | some m =>
    if old ctx m then
      let q := nextSeq st.counters m.uid
      bucketStep ctx f m fpath udestExists { st with counters := q.2 } q.1
        [Event.seqAssign m.uid q.1]
    else ⟨Except.ok (), st, []⟩

/-! ## Walk driver: `process_ent` (lines 126-147), `main` (lines 219-318) -/

inductive WalkState where
  | Continue
  | Skip
  | Quit

/-- A directory entry as the walker hands it to `process_ent`. -/
structure Ent where
  isFile : Bool
  meta : Option Meta
  path : List Nat
  udestExists : Bool
  fails : Fails

def errMsg : PErr → String
  | PErr.stat => "per-file error: stat"
  | PErr.fmt => "This should not happen (1)"
  | PErr.mkdir => "per-file error: create dir"
  | PErr.chown => "per-file error: chown"
  | PErr.audit => "per-file error: write stdout"
  | PErr.openTree => "per-file error: open tree"
  | PErr.rename => "per-file error: rename"
  | PErr.insert => "per-file error: insert"

/-- `process_ent` (src/main.rs lines 126-147): walker errors and
`process_file` errors are printed to stderr and the walk continues. -/
def process_ent (er : Except String Ent) (ctx : Ctx) (st : Ledger) :
    WalkState × Ledger × List Event × List String :=
  match er with
  | Except.error e => (WalkState.Continue, st, [], [e])
  | Except.ok ent =>
    if ent.isFile then
      let r := processFile ctx ent.meta ent.path ent.udestExists ent.fails st
      match r.res with
      | Except.ok _ => (WalkState.Continue, r.st, r.tr, [])
      | Except.error e => (WalkState.Continue, r.st, r.tr, [errMsg e])
    else (WalkState.Continue, st, [], [])

/-- The walk over a linearization of the entry stream. -/
def walkAll (ctx : Ctx) : List (Except String Ent) → Ledger →
    Ledger × List Event × List String
  | [], st => (st, [], [])
  | e :: es, st =>
    let r := process_ent e ctx st
    let rest := walkAll ctx es r.2.1
    (rest.1, r.2.2.1 ++ rest.2.1, r.2.2.2 ++ rest.2.2)

structure MainOut where
  exit : Nat
  st : Ledger
  evs : List Event
  errs : List String
  maps : Prov

/-- `main` (src/main.rs lines 219-318): setup (canonicalize + sled open) is
fatal on failure; then the parallel walk; then, when not in dry-run mode,
the export stage iterates the tree names, skips every name that is not 4
bytes long (so it performs a fallible `File::create`/`chown`/serialize only
when at least one per-owner uid tree exists) and writes one `map.json` per
uid tree, any failure aborting `main` with an error before the flush;
finally `paths_db.flush()?`.  `exportF` and `flushF` are the failure
oracles of the export stage's per-tree operations and of the flush;
`exportF` can only take effect when a uid tree exists, because otherwise
the loop body never runs. -/
def mainRun (setupOk : Bool) (ctx : Ctx) (ents : List (Except String Ent))
    (st0 : Ledger) (exportF flushF : Bool) : MainOut :=
  if setupOk then
    let w := walkAll ctx ents st0
    if ctx.dryRun then
      ⟨if flushF then 1 else 0, w.1, Event.dbOpen :: w.2.1 ++ [Event.flush], w.2.2, []⟩
    else if exportF && !w.1.prov.isEmpty then
      ⟨1, w.1, Event.dbOpen :: w.2.1, w.2.2, []⟩
    else
      ⟨if flushF then 1 else 0, w.1, Event.dbOpen :: w.2.1 ++ [Event.flush], w.2.2,
        w.1.prov⟩
  else ⟨1, st0, [], ["setup failure"], []⟩

/-! ## Sequence assignment streams (for the cross-run counter claims) -/

/-- The sequence of `update_and_fetch` calls induced by an (arbitrary
interleaving of an) owner-id stream, threading the counter tree. -/
def runSeqs : List Nat → Counters → List (Nat × Nat) × Counters
  | [], c => ([], c)
  | u :: us, c =>
    let p := nextSeq c u
    let r := runSeqs us p.2
    ((u, p.1) :: r.1, r.2)

def cnt (u : Nat) : List Nat → Nat
  | [] => 0
  | v :: vs => (if v = u then 1 else 0) + cnt u vs

/-- The values assigned to owner `u`, in assignment order. -/
def seqsFor (u : Nat) : List (Nat × Nat) → List Nat
  | [] => []
  | (k, n) :: t => if k = u then n :: seqsFor u t else seqsFor u t

/-! ## Exclusion of the destination subtree (src/main.rs lines 272-283)

Paths are component lists here.  `mkDestOverride` mirrors the condition
`ctx.dest.starts_with(&ctx.path)` and the rule text
`"!/" + dest.strip_prefix(path) + "/"`.  The gitignore override matcher of
the `ignore` crate is a black-box collaborator; `destMatchIgnored` and
`yielded` are modelled from the spec: the forced rule prunes exactly the
subtree rooted at the destination, and the walker neither opens an ignored
directory nor yields an ignored file. -/

/-- Component-wise path prefix test (`Path::starts_with`). -/
def leads : List String → List String → Bool
  | [], _ => true
  | _ :: _, [] => false
  | a :: as0, b :: bs0 => a == b && leads as0 bs0

/-- The forced override added iff the destination lies inside the source
root, carrying `dest.strip_prefix(src)`. -/
def mkDestOverride (src dest : List String) : Option (List String) :=
  if leads src dest then some (dest.drop src.length) else none

/-- Modelled from the spec: the black-box override matcher; the forced rule
`!/rel/` marks the subtree rooted at `src/rel` as ignored. -/
def destMatchIgnored (src dest p : List String) : Bool :=
  match mkDestOverride src dest with
  | none => false
  | some rel => leads (src ++ rel) p

/-- Modelled from the spec: the black-box parallel walker yields a path iff
it lies under the source root and no prefix of it below the source root is
ignored (an ignored directory is never opened; an ignored file is never a
candidate). -/
def yielded (excl : List String → Bool) (src p : List String) : Bool :=
  leads src p &&
    (List.range (p.length + 1)).all fun i =>
      !(decide (src.length < i) && excl (p.take i))

/-! ## Concrete instances used by witnesses and counterexamples -/

def d0 : DateTimeL := ⟨2020, 1, 2, 3, 4⟩

def conv0 : Int → LocalResult := fun _ => LocalResult.single d0

/-- A non-dry-run context: all age checks enabled, cutoff 100, dest `"d"`. -/
def ctx0 : Ctx := ⟨false, false, false, false, [0x64], 100, conv0⟩

/-- The same context with the dry-run flag set. -/
def ctxD : Ctx := ⟨false, false, false, true, [0x64], 100, conv0⟩

/-- A file owned by uid 7 with all timestamps 0 (older than cutoff 100). -/
def m0 : Meta := ⟨0, 0, 0, 7⟩

def st0 : Ledger := ⟨[], []⟩

def isRenameE : Event → Bool
  | Event.renameE _ _ => true
  | _ => false

def isAuditE : Event → Bool
  | Event.audit _ => true
  | _ => false

def isMkdirE : Event → Bool
  | Event.mkdirE _ => true
  | _ => false

def isChownE : Event → Bool
  | Event.chownE _ _ => true
  | _ => false

def audits (tr : List Event) : List Event := tr.filter isAuditE

def renameTargets (tr : List Event) : List (List Nat) :=
  tr.filterMap fun e => match e with
    | Event.renameE _ d => some d
    | _ => none

def seqAssigns (tr : List Event) : List Nat :=
  tr.filterMap fun e => match e with
    | Event.seqAssign _ n => some n
    | _ => none

/-- The trace of a successful non-dry-run `process_file` on a concrete file. -/
def T3 : List Event := (processFile ctx0 (some m0) [0x61] false noFails st0).tr

/-- A concrete regular-file entry as the walker would yield it. -/
def ent0 : Ent := ⟨true, some m0, [0x61], false, noFails⟩

/-! # Theorems -/

/-! ## C2: the age predicate -/

/-- C2: a file reaching the age check is selected iff every enabled
timestamp field (atime unless `--noatime`, mtime unless `--nomtime`, ctime
unless `--noctime`) is strictly earlier than the cutoff; a disabled field
is not evaluated; with all three disabled the file is selected. -/
theorem C2_age_predicate (ctx : Ctx) (m : Meta) :
    (old ctx m = true ↔
      ((ctx.noatime = false → m.atime < ctx.cutoff) ∧
       (ctx.nomtime = false → m.mtime < ctx.cutoff) ∧
       (ctx.noctime = false → m.ctime < ctx.cutoff))) ∧
    (ctx.noatime = true → ctx.nomtime = true → ctx.noctime = true →
      old ctx m = true) := by
  constructor
  · cases ha : ctx.noatime <;> cases hb : ctx.nomtime <;> cases hc : ctx.noctime <;>
      simp [old, ha, hb, hc, and_assoc]
  · intro h1 h2 h3
    simp [old, h1, h2, h3]

/-- Witness for C2 at a concrete context and file. -/
theorem C2_age_predicate_witness : old ctx0 m0 = true :=
  (C2_age_predicate ctx0 m0).1.mpr (by refine ⟨?_, ?_, ?_⟩ <;> intro h <;> decide)

/-! ## Path codec helper lemmas -/

theorem charRound : ∀ b, b < 128 → (Char.ofNat b).toNat = b := by decide

theorem octv_octChar : ∀ n, n < 8 → octv (octChar n) = some n := by decide

theorem ofNat_ne_quote (b : Nat) (hb : b < 128) (hq : b ≠ 39) :
    Char.ofNat b ≠ '\'' := by
  intro h
  apply hq
  have := charRound b hb
  rw [h] at this
  exact this.symm

theorem shEval_out_quote (r : List Char) :
    shEval QMode.out ('\'' :: r) = shEval QMode.single r := rfl

theorem shEval_out_dollar (r : List Char) :
    shEval QMode.out ('$' :: '\'' :: r) = shEval QMode.dollar r := rfl

theorem shEval_single_quote (r : List Char) :
    shEval QMode.single ('\'' :: r) = shEval QMode.out r := rfl

theorem shEval_single_cons (c : Char) (r : List Char) (h1 : c ≠ '\'')
    (h2 : c.toNat < 128) :
    shEval QMode.single (c :: r) = (shEval QMode.single r).map (c.toNat :: ·) := by
  simp [shEval, h1, h2]

theorem shEval_dollar_quote (r : List Char) :
    shEval QMode.dollar ('\'' :: r) = shEval QMode.out r := rfl

theorem shEval_dollar_esc (x y z : Nat) (r : List Char) (hx : x < 8) (hy : y < 8)
    (hz : z < 8) :
    shEval QMode.dollar ('\\' :: octChar x :: octChar y :: octChar z :: r) =
      (shEval QMode.dollar r).map ((64 * x + 8 * y + z) :: ·) := by
  have e1 := octv_octChar x hx
  have e2 := octv_octChar y hy
  have e3 := octv_octChar z hz
  rw [show shEval QMode.dollar ('\\' :: octChar x :: octChar y :: octChar z :: r) =
    shEval QMode.esc1 (octChar x :: octChar y :: octChar z :: r) from rfl]
  simp [shEval, e1, e2, e3]

theorem escBody_false_esc (b : Nat) (bs : List Nat) (h : 0x7f ≤ b ∨ b < 0x20) :
    escBody false (b :: bs) = '\'' :: '$' :: '\'' :: '\\' :: octChar (b / 64) ::
      octChar (b / 8 % 8) :: octChar (b % 8) :: escBody true bs := by
  simp [escBody, h, oct3]

theorem escBody_true_esc (b : Nat) (bs : List Nat) (h : 0x7f ≤ b ∨ b < 0x20) :
    escBody true (b :: bs) = '\\' :: octChar (b / 64) ::
      octChar (b / 8 % 8) :: octChar (b % 8) :: escBody true bs := by
  simp [escBody, h, oct3]

theorem escBody_false_plain (b : Nat) (bs : List Nat) (h : ¬(0x7f ≤ b ∨ b < 0x20)) :
    escBody false (b :: bs) = Char.ofNat b :: escBody false bs := by
  simp [escBody, h]

theorem escBody_true_plain (b : Nat) (bs : List Nat) (h : ¬(0x7f ≤ b ∨ b < 0x20)) :
    escBody true (b :: bs) = '\'' :: '\'' :: Char.ofNat b :: escBody false bs := by
  simp [escBody, h]

theorem map_map_cons (o : Option (List Nat)) (b : Nat) (bs : List Nat) :
    ((o.map (bs ++ ·)).map (b :: ·)) = o.map ((b :: bs) ++ ·) := by
  cases o <;> simp

/-- Evaluating the escaped body of a quote-free byte string, from inside a
plain single-quoted span (`false`) or inside an ANSI-C span (`true`),
recovers exactly those bytes and hands the rest of the word back to the
outside-quotes mode. -/
theorem escBody_eval (bs : List Nat) (hg : ∀ b ∈ bs, b < 256 ∧ b ≠ 39) :
    (∀ rest, shEval QMode.single (escBody false bs ++ '\'' :: rest) =
      (shEval QMode.out rest).map (bs ++ ·)) ∧
    (∀ rest, shEval QMode.dollar (escBody true bs ++ '\'' :: rest) =
      (shEval QMode.out rest).map (bs ++ ·)) := by
  induction bs with
  | nil =>
    constructor <;> intro rest <;>
      · show shEval _ ('\'' :: rest) = _
        cases h : shEval QMode.out rest <;>
          simp_all [shEval_single_quote, shEval_dollar_quote]
  | cons b bs ih =>
    have hb := hg b (List.mem_cons_self b bs)
    have hgs : ∀ x ∈ bs, x < 256 ∧ x ≠ 39 := fun x hx => hg x (List.mem_cons_of_mem b hx)
    obtain ⟨ih1, ih2⟩ := ih hgs
    have hdiv1 : b / 64 < 8 := by omega
    have hdiv2 : b / 8 % 8 < 8 := by omega
    have hdiv3 : b % 8 < 8 := by omega
    have hval : 64 * (b / 64) + 8 * (b / 8 % 8) + b % 8 = b := by omega
    by_cases hesc : 0x7f ≤ b ∨ b < 0x20
    · constructor <;> intro rest
      · rw [escBody_false_esc b bs hesc, List.cons_append, List.cons_append,
          List.cons_append, shEval_single_quote, shEval_out_dollar,
          List.cons_append, List.cons_append, List.cons_append, List.cons_append,
          shEval_dollar_esc _ _ _ _ hdiv1 hdiv2 hdiv3, ih2 rest, hval,
          map_map_cons]
      · rw [escBody_true_esc b bs hesc, List.cons_append, List.cons_append,
          List.cons_append, List.cons_append,
          shEval_dollar_esc _ _ _ _ hdiv1 hdiv2 hdiv3, ih2 rest, hval,
          map_map_cons]
    · have hlt : b < 128 := by omega
      have hne : Char.ofNat b ≠ '\'' := ofNat_ne_quote b hlt hb.2
      have htn : (Char.ofNat b).toNat = b := charRound b hlt
      constructor <;> intro rest
      · rw [escBody_false_plain b bs hesc, List.cons_append,
          shEval_single_cons _ _ hne (by rw [htn]; exact hlt), ih1 rest, htn,
          map_map_cons]
      · rw [escBody_true_plain b bs hesc, List.cons_append, List.cons_append,
          List.cons_append, shEval_dollar_quote, shEval_out_quote,
          shEval_single_cons _ _ hne (by rw [htn]; exact hlt), ih1 rest, htn,
          map_map_cons]

/-! ## C4: codec round trip (corrected)

The code passes a literal single quote straight through inside the plain
single-quoted run (0x27 lies in the printable range `0x20..0x7e` of
src/main.rs line 80), so the claimed close-escape-reopen handling does not
exist and the round trip fails for any path containing a quote; it holds
for every byte string without one. -/

/-- C4 (counterexample): for the path bytes `a'b`, the encoded literal is
`'a'b'`, which is not a well-formed shell word (unterminated quote) and in
particular does not evaluate back to the original bytes. -/
theorem C4_quote_breaks_roundtrip :
    shEval QMode.out (escChars [97, 39, 98]) ≠ some [97, 39, 98] := by decide

/-- C4 (amended): for every byte string that contains no single quote —
control bytes and invalid multi-byte sequences included — evaluating the
`escape_path` output under POSIX-shell quoting semantics reproduces exactly
the original byte sequence. -/
theorem C4_roundtrip_no_quote (bs : List Nat) (h1 : ∀ b ∈ bs, b < 256)
    (h2 : 39 ∉ bs) :
    shEval QMode.out (escChars bs) = some bs := by
  have hg : ∀ b ∈ bs, b < 256 ∧ b ≠ 39 := fun b hb => ⟨h1 b hb, fun e => h2 (e ▸ hb)⟩
  have h := (escBody_eval bs hg).1 []
  rw [escChars, shEval_out_quote, show (['\''] : List Char) = '\'' :: [] from rfl, h]
  simp [shEval]

/-- Witness for C4 on bytes containing a control byte (0x01) and an
invalid-UTF-8 byte (0x80). -/
theorem C4_roundtrip_witness :
    ((∀ b ∈ ([102, 1, 128, 111] : List Nat), b < 256) ∧
      (39 : Nat) ∉ ([102, 1, 128, 111] : List Nat)) ∧
    shEval QMode.out (escChars [102, 1, 128, 111]) = some [102, 1, 128, 111] :=
  ⟨⟨by decide, by decide⟩, C4_roundtrip_no_quote _ (by decide) (by decide)⟩

/-! ### Fidelity of the codec model against the Rust unit tests -/

theorem escape_path_test_invalid_utf8 :
    escape_path [0x66, 0x6f, 0x80, 0x6f] = "'fo'$'\\200''o'" := by decide

theorem escape_path_test_sparkle_heart :
    escape_path [240, 159, 146, 150] = "''$'\\360\\237\\222\\226'" := by decide

theorem escape_path_test_limits :
    escape_path [1, 31, 32, 0x7f, 0x7e] = "''$'\\001\\037'' '$'\\177''~'" := by decide

/-! ## C1: per-owner sequence numbers are contiguous across runs -/

theorem lookupC_insertC_self (c : Counters) (u v : Nat) :
    lookupC (insertC c u v) u = some v := by
  induction c with
  | nil => simp [insertC, lookupC]
  | cons p t ih =>
    obtain ⟨k, w⟩ := p
    by_cases h : k = u <;> simp [insertC, lookupC, h, ih]

theorem lookupC_insertC_ne (c : Counters) (k u v : Nat) (h : k ≠ u) :
    lookupC (insertC c k v) u = lookupC c u := by
  induction c with
  | nil => simp [insertC, lookupC, h]
  | cons p t ih =>
    obtain ⟨k0, w⟩ := p
    by_cases h0 : k0 = k
    · subst h0
      simp [insertC, lookupC, h]
    · by_cases h1 : k0 = u
      · subst h1
        simp [insertC, lookupC, h0]
      · simp [insertC, lookupC, h0, h1, ih]

theorem cnt_append (u : Nat) (l1 l2 : List Nat) :
    cnt u (l1 ++ l2) = cnt u l1 + cnt u l2 := by
  induction l1 with
  | nil => simp [cnt]
  | cons v t ih =>
    simp [cnt, ih]
    omega

/-- Invariant of the counter tree: if the stored value for owner `u` is
`j - 1` (absent for `j = 0`), the next `cnt u us` assignments to `u` return
exactly `j, j+1, ...`, and the stored value advances accordingly. -/
theorem runSeqs_spec (us : List Nat) (c : Counters) (u j : Nat)
    (hc : lookupC c u = if j = 0 then none else some (j - 1))
    (hle : j + cnt u us ≤ 2 ^ 32) :
    seqsFor u (runSeqs us c).1 = List.range' j (cnt u us) ∧
    lookupC (runSeqs us c).2 u =
      (if j + cnt u us = 0 then none else some (j + cnt u us - 1)) := by
  induction us generalizing c j with
  | nil =>
    refine ⟨?_, ?_⟩
    · simp [runSeqs, seqsFor, cnt]
    · simpa [runSeqs, cnt] using hc
  | cons v us ih =>
    by_cases hv : v = u
    · subst hv
      have hcnt : cnt v (v :: us) = 1 + cnt v us := by
        simp [cnt]
      rw [hcnt] at hle ⊢
      have hj' : j < 2 ^ 32 := by omega
      have hn1 : (nextSeq c v).1 = j := by
        by_cases hj : j = 0
        · simp [nextSeq, hc, hj]
        · have hjj : j - 1 + 1 = j := by omega
          have hstep : (nextSeq c v).1 = (j - 1 + 1) % 2 ^ 32 := by
            simp [nextSeq, hc, hj]
          rw [hstep, hjj, Nat.mod_eq_of_lt hj']
      have hn2 : (nextSeq c v).2 = insertC c v ((nextSeq c v).1) := rfl
      have hc' : lookupC (nextSeq c v).2 v =
          (if j + 1 = 0 then none else some (j + 1 - 1)) := by
        rw [hn2, hn1, lookupC_insertC_self]
        simp
      have hle' : (j + 1) + cnt v us ≤ 2 ^ 32 := by omega
      obtain ⟨ihs, ihc⟩ := ih (nextSeq c v).2 (j + 1) hc' hle'
      refine ⟨?_, ?_⟩
      · show seqsFor v ((v, (nextSeq c v).1) :: (runSeqs us (nextSeq c v).2).1) = _
        rw [seqsFor, if_pos rfl, hn1, ihs]
        rw [show 1 + cnt v us = cnt v us + 1 from by omega, List.range'_succ]
      · show lookupC (runSeqs us (nextSeq c v).2).2 v = _
        rw [ihc]
        have h1 : ¬(j + 1 + cnt v us = 0) := by omega
        have h2 : ¬(j + (1 + cnt v us) = 0) := by omega
        rw [if_neg h1, if_neg h2]
        congr 1
        omega
    · have hcnt : cnt u (v :: us) = cnt u us := by simp [cnt, hv]
      rw [hcnt]
      have hc' : lookupC (nextSeq c v).2 u = (if j = 0 then none else some (j - 1)) := by
        rw [show (nextSeq c v).2 = insertC c v ((nextSeq c v).1) from rfl,
          lookupC_insertC_ne c v u _ hv, hc]
      rw [hcnt] at hle
      obtain ⟨ihs, ihc⟩ := ih (nextSeq c v).2 j hc' hle
      refine ⟨?_, ?_⟩
      · show seqsFor u ((v, (nextSeq c v).1) :: (runSeqs us (nextSeq c v).2).1) = _
        rw [seqsFor, if_neg hv, ihs]
      · exact ihc

/-- Running the tool twice is running the concatenated stream: the second
run picks up the counter tree the first run persisted. -/
theorem runSeqs_append (us1 us2 : List Nat) (c : Counters) :
    runSeqs (us1 ++ us2) c =
      ((runSeqs us1 c).1 ++ (runSeqs us2 (runSeqs us1 c).2).1,
       (runSeqs us2 (runSeqs us1 c).2).2) := by
  induction us1 generalizing c with
  | nil => simp [runSeqs]
  | cons v us ih => simp [runSeqs, ih]

/-- C1: against one destination ledger, the per-owner sequence values
assigned over one or more invocations (the second invocation continues
from the persisted counter tree: the combined run is the run of the
concatenated owner stream) are exactly `0, 1, ..., k-1` in assignment
order — pairwise distinct and contiguous from 0 — for any interleaving
with other owners. -/
theorem C1_seq_contiguous (l1 l2 : List Nat) (u : Nat)
    (h : cnt u l1 + cnt u l2 ≤ 2 ^ 32) :
    seqsFor u (runSeqs (l1 ++ l2) []).1 = List.range (cnt u l1 + cnt u l2) ∧
    (seqsFor u (runSeqs (l1 ++ l2) []).1).Nodup ∧
    runSeqs (l1 ++ l2) [] =
      ((runSeqs l1 []).1 ++ (runSeqs l2 (runSeqs l1 []).2).1,
       (runSeqs l2 (runSeqs l1 []).2).2) := by
  have hcnt : cnt u (l1 ++ l2) = cnt u l1 + cnt u l2 := cnt_append u l1 l2
  have hs := runSeqs_spec (l1 ++ l2) [] u 0 (by simp [lookupC]) (by omega)
  have h1 : seqsFor u (runSeqs (l1 ++ l2) []).1 = List.range (cnt u l1 + cnt u l2) := by
    rw [hs.1, hcnt, List.range_eq_range']
  refine ⟨h1, ?_, runSeqs_append l1 l2 []⟩
  rw [h1]
  exact List.nodup_range _

/-- Witness for C1: owner 5 over two runs `[5, 5, 7]` then `[5]` receives
`[0, 1, 2]`. -/
theorem C1_seq_contiguous_witness :
    cnt 5 [5, 5, 7] + cnt 5 [5] ≤ 2 ^ 32 ∧
    seqsFor 5 (runSeqs ([5, 5, 7] ++ [5]) []).1 =
      List.range (cnt 5 [5, 5, 7] + cnt 5 [5]) :=
  ⟨by decide, (C1_seq_contiguous [5, 5, 7] [5] 5 (by decide)).1⟩

/-! ## C3: order of the per-file steps (corrected)

The claimed order puts the physical move before the audit emission; in the
code the audit `writeln!` (lines 197-210) precedes `open_tree` (line 211)
and the rename (lines 212-214). -/

/-- C3 (counterexample): on a concrete non-dry-run file both a rename event
and an audit event occur, and the rename does *not* precede the audit — the
audit line is written before the file is moved. -/
theorem C3_audit_before_rename :
    T3.any isRenameE = true ∧ T3.any isAuditE = true ∧
    ¬ T3.findIdx isRenameE < T3.findIdx isAuditE := by decide

/-- C3 (amended): in a non-dry run with no per-file failure, the engine's
steps occur in the order: sequence assignment, bucket materialization
(mkdir then chown), audit emission to stdout, provenance-tree open,
physical move (rename), provenance recording — the audit line precedes the
rename. -/
theorem C3_actual_order (ctx : Ctx) (m : Meta) (fpath : List Nat) (st : Ledger)
    (sa sc sm : String)
    (hdry : ctx.dryRun = false) (hold : old ctx m = true)
    (ha : format_time ctx.conv m.atime = Except.ok sa)
    (hc : format_time ctx.conv m.ctime = Except.ok sc)
    (hm : format_time ctx.conv m.mtime = Except.ok sm) :
    (processFile ctx (some m) fpath false noFails st).tr =
      [Event.seqAssign m.uid (nextSeq st.counters m.uid).1,
       Event.mkdirE (joinP ctx.dest (natBytes m.uid)),
       Event.chownE (joinP ctx.dest (natBytes m.uid)) m.uid,
       Event.audit (auditLine sa sc sm m.uid (escape_path fpath)),
       Event.openTreeE m.uid,
       Event.renameE fpath (joinP (joinP ctx.dest (natBytes m.uid))
         (natBytes (nextSeq st.counters m.uid).1)),
       Event.provInsertE m.uid
         (escape_path (joinP (joinP ctx.dest (natBytes m.uid))
           (natBytes (nextSeq st.counters m.uid).1)))
         (escape_path fpath)] := by
  simp [processFile, bucketStep, auditStep, openTreeStep, renameStep, insertStep,
    noFails, hold, hdry, ha, hc, hm]

/-- Witness for C3 (amended) at a concrete non-dry-run file. -/
theorem C3_actual_order_witness :
    (processFile ctx0 (some m0) [0x61] false noFails st0).tr =
      [Event.seqAssign m0.uid (nextSeq st0.counters m0.uid).1,
       Event.mkdirE (joinP ctx0.dest (natBytes m0.uid)),
       Event.chownE (joinP ctx0.dest (natBytes m0.uid)) m0.uid,
       Event.audit (auditLine (fmtYmdHm d0) (fmtYmdHm d0) (fmtYmdHm d0) m0.uid
         (escape_path [0x61])),
       Event.openTreeE m0.uid,
       Event.renameE [0x61] (joinP (joinP ctx0.dest (natBytes m0.uid))
         (natBytes (nextSeq st0.counters m0.uid).1)),
       Event.provInsertE m0.uid
         (escape_path (joinP (joinP ctx0.dest (natBytes m0.uid))
           (natBytes (nextSeq st0.counters m0.uid).1)))
         (escape_path [0x61])] :=
  C3_actual_order ctx0 m0 [0x61] st0 (fmtYmdHm d0) (fmtYmdHm d0) (fmtYmdHm d0)
    rfl (by decide) rfl rfl rfl

/-! ## C5: dry-run non-mutation -/

/-- Events are benign when they are not a mkdir, chown or rename. -/
theorem insertStep_mem_benign (f : Fails) (st : Ledger) (uid : Nat) (kd ep : String)
    (t : List Event) (e : Event) (he : e ∈ (insertStep f st uid kd ep t).tr) :
    e ∈ t ∨ (isMkdirE e = false ∧ isChownE e = false ∧ isRenameE e = false) := by
  unfold insertStep at he
  split at he
  · exact Or.inl he
  · simp only [List.mem_append, List.mem_singleton] at he
    rcases he with h | h
    · exact Or.inl h
    · subst h
      exact Or.inr ⟨rfl, rfl, rfl⟩

theorem renameStep_mem_dry (f : Fails) (fpath fdest : List Nat) (st : Ledger)
    (uid : Nat) (kd ep : String) (t : List Event) (e : Event)
    (he : e ∈ (renameStep true f fpath fdest st uid kd ep t).tr) :
    e ∈ t ∨ (isMkdirE e = false ∧ isChownE e = false ∧ isRenameE e = false) := by
  unfold renameStep at he
  rw [if_pos rfl] at he
  exact insertStep_mem_benign f st uid kd ep t e he

theorem openTreeStep_mem_dry (f : Fails) (fpath fdest : List Nat) (st : Ledger)
    (uid : Nat) (kd ep : String) (t : List Event) (e : Event)
    (he : e ∈ (openTreeStep true f fpath fdest st uid kd ep t).tr) :
    e ∈ t ∨ (isMkdirE e = false ∧ isChownE e = false ∧ isRenameE e = false) := by
  unfold openTreeStep at he
  split at he
  · exact Or.inl he
  · rcases renameStep_mem_dry f fpath fdest _ uid kd ep _ e he with h | h
    · simp only [List.mem_append, List.mem_singleton] at h
      rcases h with h | h
      · exact Or.inl h
      · subst h
        exact Or.inr ⟨rfl, rfl, rfl⟩
    · exact Or.inr h

theorem auditStep_mem_dry (ctx : Ctx) (f : Fails) (m : Meta) (fpath fdest : List Nat)
    (st : Ledger) (t : List Event) (e : Event) (hdry : ctx.dryRun = true)
    (he : e ∈ (auditStep ctx f m fpath fdest st t).tr) :
    e ∈ t ∨ (isMkdirE e = false ∧ isChownE e = false ∧ isRenameE e = false) := by
  unfold auditStep at he
  split at he
  · split at he
    · exact Or.inl he
    · rw [hdry] at he
      rcases openTreeStep_mem_dry f fpath fdest st m.uid _ _ _ e he with h | h
      · simp only [List.mem_append, List.mem_singleton] at h
        rcases h with h | h
        · exact Or.inl h
        · subst h
          exact Or.inr ⟨rfl, rfl, rfl⟩
      · exact Or.inr h
  · exact Or.inl he

theorem bucketStep_mem_dry (ctx : Ctx) (f : Fails) (m : Meta) (fpath : List Nat)
    (ex : Bool) (st : Ledger) (n : Nat) (t : List Event) (e : Event)
    (hdry : ctx.dryRun = true)
    (he : e ∈ (bucketStep ctx f m fpath ex st n t).tr) :
    e ∈ t ∨ (isMkdirE e = false ∧ isChownE e = false ∧ isRenameE e = false) := by
  unfold bucketStep at he
  rw [hdry] at he
  simp only [Bool.not_true, Bool.and_false] at he
  rw [if_neg (by simp)] at he
  exact auditStep_mem_dry ctx f m fpath _ st t e hdry he

/-- C5: with the dry-run flag set, `process_file` performs no mkdir, no
chown and no rename, whatever fails; the audit events are exactly those of
the corresponding non-dry run; every qualifying file still gets its one
audit line, identical to the non-dry-run one; and `main` writes no
`map.json` files. -/
theorem C5_dry_run_non_mutation (ctx : Ctx) (meta : Option Meta) (fpath : List Nat)
    (ex : Bool) (f : Fails) (st : Ledger) (hdry : ctx.dryRun = true) :
    (∀ e ∈ (processFile ctx meta fpath ex f st).tr,
        isMkdirE e = false ∧ isChownE e = false ∧ isRenameE e = false) ∧
    audits (processFile ctx meta fpath ex noFails st).tr =
      audits (processFile { ctx with dryRun := false } meta fpath ex noFails st).tr ∧
    (∀ m sa sc sm, meta = some m → old ctx m = true →
      format_time ctx.conv m.atime = Except.ok sa →
      format_time ctx.conv m.ctime = Except.ok sc →
      format_time ctx.conv m.mtime = Except.ok sm →
      audits (processFile ctx meta fpath ex noFails st).tr =
        [Event.audit (auditLine sa sc sm m.uid (escape_path fpath))]) ∧
    (∀ sOk ents stX exF flF, (mainRun sOk ctx ents stX exF flF).maps = []) := by
  refine ⟨?_, ?_, ?_, ?_⟩
  · intro e he
    cases meta with
    | none => simp [processFile] at he
    | some m =>
      simp only [processFile] at he
      split at he
      · rcases bucketStep_mem_dry ctx f m fpath ex _ _ _ e hdry he with h | h
        · simp only [List.mem_singleton] at h
          subst h
          exact ⟨rfl, rfl, rfl⟩
        · exact h
      · simp at he
  · cases meta with
    | none => rfl
    | some m =>
      have hold' : old { ctx with dryRun := false } m = old ctx m := rfl
      by_cases hold : old ctx m
      · simp only [processFile, hold', hold, if_true]
        cases ha : format_time ctx.conv m.atime with
        | error ea =>
          cases ex <;>
            simp [bucketStep, auditStep, hdry, noFails, ha, audits, isAuditE]
        | ok sa =>
          cases hc : format_time ctx.conv m.ctime with
          | error ec =>
            cases ex <;>
              simp [bucketStep, auditStep, hdry, noFails, ha, hc, audits, isAuditE]
          | ok sc =>
            cases hm : format_time ctx.conv m.mtime with
            | error em =>
              cases ex <;>
                simp [bucketStep, auditStep, hdry, noFails, ha, hc, hm, audits, isAuditE]
            | ok sm =>
              cases ex <;>
                simp [bucketStep, auditStep, openTreeStep, renameStep, insertStep,
                  hdry, noFails, ha, hc, hm, audits, isAuditE]
      · simp [processFile, hold', hold]
  · intro m sa sc sm hmeta hold ha hc hm
    subst hmeta
    simp [processFile, bucketStep, auditStep, openTreeStep, renameStep, insertStep,
      noFails, hold, hdry, ha, hc, hm, audits, isAuditE]
  · intro sOk ents stX exF flF
    cases sOk <;> simp [mainRun, hdry]

/-- Witness for C5 at a concrete dry-run context and file. -/
theorem C5_dry_run_non_mutation_witness :
    (∀ e ∈ (processFile ctxD (some m0) [0x61] false noFails st0).tr,
        isMkdirE e = false ∧ isChownE e = false ∧ isRenameE e = false) ∧
    audits (processFile ctxD (some m0) [0x61] false noFails st0).tr =
      audits (processFile { ctxD with dryRun := false } (some m0) [0x61] false
        noFails st0).tr :=
  ⟨(C5_dry_run_non_mutation ctxD (some m0) [0x61] false noFails st0 rfl).1,
   (C5_dry_run_non_mutation ctxD (some m0) [0x61] false noFails st0 rfl).2.1⟩

/-! ## Counter preservation through the pipeline (for C9 / C10) -/

theorem insertStep_counters (f : Fails) (st : Ledger) (uid : Nat) (kd ep : String)
    (t : List Event) : (insertStep f st uid kd ep t).st.counters = st.counters := by
  unfold insertStep
  split <;> rfl

theorem renameStep_counters (dry : Bool) (f : Fails) (fpath fdest : List Nat)
    (st : Ledger) (uid : Nat) (kd ep : String) (t : List Event) :
    (renameStep dry f fpath fdest st uid kd ep t).st.counters = st.counters := by
  unfold renameStep
  split
  · apply insertStep_counters
  · split
    · rfl
    · apply insertStep_counters

theorem openTreeStep_counters (dry : Bool) (f : Fails) (fpath fdest : List Nat)
    (st : Ledger) (uid : Nat) (kd ep : String) (t : List Event) :
    (openTreeStep dry f fpath fdest st uid kd ep t).st.counters = st.counters := by
  unfold openTreeStep
  split
  · rfl
  · rw [renameStep_counters]

theorem auditStep_counters (ctx : Ctx) (f : Fails) (m : Meta) (fpath fdest : List Nat)
    (st : Ledger) (t : List Event) :
    (auditStep ctx f m fpath fdest st t).st.counters = st.counters := by
  unfold auditStep
  split
  · split
    · rfl
    · rw [openTreeStep_counters]
  · rfl

theorem bucketStep_counters (ctx : Ctx) (f : Fails) (m : Meta) (fpath : List Nat)
    (ex : Bool) (st : Ledger) (n : Nat) (t : List Event) :
    (bucketStep ctx f m fpath ex st n t).st.counters = st.counters := by
  unfold bucketStep
  split
  · split
    · rfl
    · split
      · rfl
      · rw [auditStep_counters]
  · rw [auditStep_counters]

/-- Whatever happens after the sequence assignment, the counter tree of the
resulting state is exactly the incremented one. -/
theorem processFile_counters (ctx : Ctx) (m : Meta) (fpath : List Nat) (ex : Bool)
    (f : Fails) (st : Ledger) (hold : old ctx m = true) :
    (processFile ctx (some m) fpath ex f st).st.counters =
      (nextSeq st.counters m.uid).2 := by
  simp only [processFile, hold, if_true]
  rw [bucketStep_counters]

theorem nextSeq_snd (c : Counters) (u : Nat) :
    (nextSeq c u).2 = insertC c u ((nextSeq c u).1) := rfl

theorem treeGet_treeIns_self (t : ProvTree) (k v : String) :
    treeGet (treeIns t k v) k = some v := by
  induction t with
  | nil => simp [treeIns, treeGet]
  | cons p r ih =>
    obtain ⟨k0, v0⟩ := p
    by_cases h : k0 = k <;> simp [treeIns, treeGet, h, ih]

theorem provLookup_provIns_self (pr : Prov) (u : Nat) (k v : String) :
    provLookup (provIns pr u k v) u k = some v := by
  induction pr with
  | nil => simp [provIns, provLookup, provGet, treeGet]
  | cons p r ih =>
    obtain ⟨u0, t0⟩ := p
    by_cases h : u0 = u
    · subst h
      simp [provIns, provLookup, provGet, treeGet_treeIns_self]
    · simpa [provIns, provLookup, provGet, h] using ih

/-! ## C9: a dry run still mutates the ledger durably -/

/-- C9: with the dry-run flag set, a qualifying file still consumes a
sequence number (the counter tree records it durably), still inserts a
provenance entry mapping the escaped would-be destination to the escaped
original path, the run still opens the store at startup and flushes it at
exit, and a later non-dry run exports exactly the accumulated provenance
trees — phantom entries of the dry run included — as its `map.json`
contents. -/
theorem C9_dry_run_mutates (ctx : Ctx) (m : Meta) (fpath : List Nat) (ex : Bool)
    (st : Ledger) (sa sc sm : String)
    (hdry : ctx.dryRun = true) (hold : old ctx m = true)
    (ha : format_time ctx.conv m.atime = Except.ok sa)
    (hc : format_time ctx.conv m.ctime = Except.ok sc)
    (hm : format_time ctx.conv m.mtime = Except.ok sm) :
    (processFile ctx (some m) fpath ex noFails st).res = Except.ok () ∧
    lookupC (processFile ctx (some m) fpath ex noFails st).st.counters m.uid =
      some ((nextSeq st.counters m.uid).1) ∧
    provLookup (processFile ctx (some m) fpath ex noFails st).st.prov m.uid
        (escape_path (joinP (joinP ctx.dest (natBytes m.uid))
          (natBytes ((nextSeq st.counters m.uid).1)))) =
      some (escape_path fpath) ∧
    (∀ ents stX, (mainRun true ctx ents stX false false).evs =
      Event.dbOpen :: (walkAll ctx ents stX).2.1 ++ [Event.flush]) ∧
    (∀ ctx2 : Ctx, ctx2.dryRun = false →
      (mainRun true ctx2 [] (processFile ctx (some m) fpath ex noFails st).st
          false false).maps =
        (processFile ctx (some m) fpath ex noFails st).st.prov) := by
  have hpf : processFile ctx (some m) fpath ex noFails st =
      ⟨Except.ok (),
       ⟨(nextSeq st.counters m.uid).2,
        provIns (provOpen st.prov m.uid) m.uid
          (escape_path (joinP (joinP ctx.dest (natBytes m.uid))
            (natBytes ((nextSeq st.counters m.uid).1))))
          (escape_path fpath)⟩,
       [Event.seqAssign m.uid (nextSeq st.counters m.uid).1,
        Event.audit (auditLine sa sc sm m.uid (escape_path fpath)),
        Event.openTreeE m.uid,
        Event.provInsertE m.uid
          (escape_path (joinP (joinP ctx.dest (natBytes m.uid))
            (natBytes ((nextSeq st.counters m.uid).1))))
          (escape_path fpath)]⟩ := by
    simp [processFile, bucketStep, auditStep, openTreeStep, renameStep, insertStep,
      noFails, hold, hdry, ha, hc, hm]
  refine ⟨?_, ?_, ?_, ?_, ?_⟩
  · rw [hpf]
  · rw [hpf]
    rw [show (⟨(nextSeq st.counters m.uid).2, _⟩ : Ledger).counters =
      (nextSeq st.counters m.uid).2 from rfl, nextSeq_snd, lookupC_insertC_self]
  · rw [hpf]
    exact provLookup_provIns_self _ _ _ _
  · intro ents stX
    simp [mainRun, hdry]
  · intro ctx2 h2
    simp [mainRun, h2, walkAll]

/-- Witness for C9 at a concrete dry-run context and file. -/
theorem C9_dry_run_mutates_witness :
    (processFile ctxD (some m0) [0x61] false noFails st0).res = Except.ok () ∧
    lookupC (processFile ctxD (some m0) [0x61] false noFails st0).st.counters
      m0.uid = some ((nextSeq st0.counters m0.uid).1) ∧
    provLookup (processFile ctxD (some m0) [0x61] false noFails st0).st.prov m0.uid
        (escape_path (joinP (joinP ctxD.dest (natBytes m0.uid))
          (natBytes ((nextSeq st0.counters m0.uid).1)))) =
      some (escape_path [0x61]) :=
  ⟨(C9_dry_run_mutates ctxD m0 [0x61] false st0 (fmtYmdHm d0) (fmtYmdHm d0)
      (fmtYmdHm d0) rfl (by decide) rfl rfl rfl).1,
   (C9_dry_run_mutates ctxD m0 [0x61] false st0 (fmtYmdHm d0) (fmtYmdHm d0)
      (fmtYmdHm d0) rfl (by decide) rfl rfl rfl).2.1,
   (C9_dry_run_mutates ctxD m0 [0x61] false st0 (fmtYmdHm d0) (fmtYmdHm d0)
      (fmtYmdHm d0) rfl (by decide) rfl rfl rfl).2.2.1⟩

/-! ## C10: failed steps after assignment do not roll the counter back -/

/-- C10: once a qualifying file's sequence number is assigned, the
incremented counter survives every later failure (bucket creation, chown,
rename, provenance insert); the next assignment for that owner is the
successor, i.e. strictly larger; and in a concrete run where the first
file's rename fails, the rename targets of the two files are only
`dest/7/1` while the assigned values are the contiguous `[0, 1]` — a gap in
the bucket with no gap in the counter. -/
theorem C10_counter_not_rolled_back (ctx : Ctx) (m : Meta) (fpath : List Nat)
    (ex : Bool) (f : Fails) (st : Ledger) (hold : old ctx m = true) :
    (processFile ctx (some m) fpath ex f st).st.counters =
      (nextSeq st.counters m.uid).2 ∧
    lookupC (processFile ctx (some m) fpath ex f st).st.counters m.uid =
      some ((nextSeq st.counters m.uid).1) ∧
    ((nextSeq st.counters m.uid).1 + 1 < 2 ^ 32 →
      (nextSeq (processFile ctx (some m) fpath ex f st).st.counters m.uid).1 =
        (nextSeq st.counters m.uid).1 + 1) ∧
    ((processFile ctx0 (some m0) [0x61] false renameFails st0).res =
        Except.error PErr.rename ∧
      seqAssigns ((processFile ctx0 (some m0) [0x61] false renameFails st0).tr ++
        (processFile ctx0 (some m0) [0x62] false noFails
          (processFile ctx0 (some m0) [0x61] false renameFails st0).st).tr) =
        [0, 1] ∧
      renameTargets ((processFile ctx0 (some m0) [0x61] false renameFails st0).tr ++
        (processFile ctx0 (some m0) [0x62] false noFails
          (processFile ctx0 (some m0) [0x61] false renameFails st0).st).tr) =
        [joinP (joinP ctx0.dest (natBytes 7)) (natBytes 1)]) := by
  have hcc := processFile_counters ctx m fpath ex f st hold
  have hlk : lookupC (processFile ctx (some m) fpath ex f st).st.counters m.uid =
      some ((nextSeq st.counters m.uid).1) := by
    rw [hcc, nextSeq_snd, lookupC_insertC_self]
  refine ⟨hcc, hlk, ?_, rfl, by decide, by decide⟩
  intro hlt
  simp only [nextSeq, hlk]
  exact Nat.mod_eq_of_lt hlt

/-- Witness for C10 at a concrete file and failure pattern. -/
theorem C10_counter_not_rolled_back_witness :
    (processFile ctx0 (some m0) [0x61] false renameFails st0).st.counters =
      (nextSeq st0.counters m0.uid).2 ∧
    lookupC (processFile ctx0 (some m0) [0x61] false renameFails st0).st.counters
      m0.uid = some ((nextSeq st0.counters m0.uid).1) :=
  ⟨(C10_counter_not_rolled_back ctx0 m0 [0x61] false renameFails st0 (by decide)).1,
   (C10_counter_not_rolled_back ctx0 m0 [0x61] false renameFails st0
      (by decide)).2.1⟩

/-! ## C7: per-entry error handling (corrected)

Per-entry errors are indeed reported and skipped without aborting the walk
or touching the exit code, and setup failures are fatal; but they are not
the *only* fatal errors: once at least one relocation has put a uid tree
into the ledger, the post-walk export stage performs fallible
`File::create`/`chown`/serialize operations whose failure exits non-zero,
via the `?` operators in src/main.rs lines 291-314. -/

/-- C7 (counterexample): a non-dry run over one regular file that relocates
cleanly — the walk reports no per-entry error — then exits non-zero when
the export stage's write of that owner's `map.json` fails, although setup
succeeded; with the export succeeding the same run exits 0.  So setup
failures are not the only fatal errors. -/
theorem C7_export_failure_fatal :
    (walkAll ctx0 [Except.ok ent0] st0).2.2 = [] ∧
    (mainRun true ctx0 [Except.ok ent0] st0 true false).exit = 1 ∧
    (mainRun true ctx0 [Except.ok ent0] st0 false false).exit = 0 :=
  ⟨rfl, rfl, rfl⟩

/-- C7 (amended): the walker callback always returns `Continue` — no
per-entry error aborts the traversal; a walker error is printed to stderr
with the state untouched; a `process_file` error is printed to stderr and
only that entry is affected; with export and flush succeeding, the exit
code is 0 whatever per-entry errors occurred, so a per-entry error never
changes the exit code by itself; setup failures exit non-zero; an
export-stage failure exits non-zero once some owner has a uid tree to
export; and when no uid tree exists the export stage runs no fallible
operation, so its failure oracle cannot make the run exit non-zero. -/
theorem C7_per_entry_errors :
    (∀ er ctx st, (process_ent er ctx st).1 = WalkState.Continue) ∧
    (∀ e ctx st, process_ent (Except.error e) ctx st =
      (WalkState.Continue, st, [], [e])) ∧
    (∀ ctx ent st, ent.isFile = true →
      (process_ent (Except.ok ent) ctx st).2.2.2 =
        (match (processFile ctx ent.meta ent.path ent.udestExists ent.fails st).res
            with
          | Except.ok _ => []
          | Except.error e2 => [errMsg e2])) ∧
    (∀ ctx ents st, (mainRun true ctx ents st false false).exit = 0) ∧
    (∀ ctx ents st exF flF, (mainRun false ctx ents st exF flF).exit = 1) ∧
    (∀ ctx ents st flF, ctx.dryRun = false →
      (walkAll ctx ents st).1.prov.isEmpty = false →
      (mainRun true ctx ents st true flF).exit = 1) ∧
    (∀ ctx ents st exF, ctx.dryRun = false →
      (walkAll ctx ents st).1.prov.isEmpty = true →
      (mainRun true ctx ents st exF false).exit = 0) := by
  refine ⟨?_, ?_, ?_, ?_, ?_, ?_, ?_⟩
  · intro er c s
    cases er with
    | error e => rfl
    | ok ent =>
      simp only [process_ent]
      by_cases h : ent.isFile = true
      · rw [if_pos h]
        split <;> rfl
      · rw [if_neg h]
  · intro e c s
    rfl
  · intro c ent s h
    simp only [process_ent, if_pos h]
    split <;> simp_all
  · intro c ents s
    simp only [mainRun, if_true]
    by_cases hd : c.dryRun = true
    · simp [hd]
    · simp only [Bool.not_eq_true] at hd
      simp [hd]
  · intro c ents s exF flF
    rfl
  · intro c ents s flF hd hne
    simp [mainRun, hd, hne]
  · intro c ents s exF hd hemp
    simp [mainRun, hd, hemp]

/-- Witness for C7 at a concrete entry whose `process_file` succeeds and a
concrete walker error. -/
theorem C7_per_entry_errors_witness :
    (process_ent (Except.ok ent0) ctx0 st0).2.2.2 =
      (match (processFile ctx0 ent0.meta ent0.path ent0.udestExists ent0.fails
          st0).res with
        | Except.ok _ => []
        | Except.error e2 => [errMsg e2]) ∧
    process_ent (Except.error "walk error") ctx0 st0 =
      (WalkState.Continue, st0, [], ["walk error"]) :=
  ⟨C7_per_entry_errors.2.2.1 ctx0 ent0 st0 rfl,
   C7_per_entry_errors.2.1 "walk error" ctx0 st0⟩

/-! ## C6: the destination subtree is never walked -/

theorem leads_append (l t : List String) : leads l (l ++ t) = true := by
  induction l with
  | nil => rfl
  | cons a r ih => simp [leads, ih]

theorem leads_refl (l : List String) : leads l l = true := by
  have h := leads_append l []
  rwa [List.append_nil] at h

theorem leads_length_le (l p : List String) (h : leads l p = true) :
    l.length ≤ p.length := by
  induction l generalizing p with
  | nil => simp
  | cons a r ih =>
    cases p with
    | nil => simp [leads] at h
    | cons b q =>
      simp only [leads, Bool.and_eq_true, beq_iff_eq] at h
      have := ih q h.2
      simp only [List.length_cons]
      omega

theorem leads_take (l p : List String) (h : leads l p = true) :
    p.take l.length = l := by
  induction l generalizing p with
  | nil => simp
  | cons a r ih =>
    cases p with
    | nil => simp [leads] at h
    | cons b q =>
      simp only [leads, Bool.and_eq_true, beq_iff_eq] at h
      simp [List.take, ih q h.2, h.1]

theorem leads_append_drop (l p : List String) (h : leads l p = true) :
    l ++ p.drop l.length = p := by
  induction l generalizing p with
  | nil => simp
  | cons a r ih =>
    cases p with
    | nil => simp [leads] at h
    | cons b q =>
      simp only [leads, Bool.and_eq_true, beq_iff_eq] at h
      simp [List.drop, ih q h.2, h.1]

theorem leads_length_lt (l p : List String) (h : leads l p = true) (hne : l ≠ p) :
    l.length < p.length := by
  induction l generalizing p with
  | nil =>
    cases p with
    | nil => exact absurd rfl hne
    | cons b q => simp
  | cons a r ih =>
    cases p with
    | nil => simp [leads] at h
    | cons b q =>
      simp only [leads, Bool.and_eq_true, beq_iff_eq] at h
      have hne2 : r ≠ q := by
        intro hrq
        exact hne (by rw [h.1, hrq])
      have := ih q h.2 hne2
      simp only [List.length_cons]
      omega

/-- C6: when the canonical destination lies (strictly) inside the canonical
source root, the forced override prunes the whole destination subtree: no
path at or below the destination is ever opened or yielded by the walker,
with no exclusion file involved; when the destination lies outside the
source root no rule is added at all. -/
theorem C6_dest_never_walked (src dest p : List String)
    (h1 : leads src dest = true) (h2 : src ≠ dest) (h3 : leads dest p = true) :
    yielded (destMatchIgnored src dest) src p = false ∧
    (∀ s d : List String, leads s d = false → mkDestOverride s d = none) := by
  constructor
  · unfold yielded
    have hmem : dest.length ∈ List.range (p.length + 1) := by
      have := leads_length_le dest p h3
      simp only [List.mem_range]
      omega
    have ht : p.take dest.length = dest := leads_take dest p h3
    have hlt : src.length < dest.length := leads_length_lt src dest h1 h2
    have hm : destMatchIgnored src dest dest = true := by
      unfold destMatchIgnored mkDestOverride
      rw [if_pos h1]
      rw [show (some (dest.drop src.length) : Option (List String)) = some _ from rfl]
      dsimp only
      rw [leads_append_drop src dest h1]
      exact leads_refl dest
    rcases Bool.eq_false_or_eq_true ((List.range (p.length + 1)).all fun i =>
        !(decide (src.length < i) && destMatchIgnored src dest (p.take i))) with
      htr | hf
    · exfalso
      have hx := List.all_eq_true.mp htr dest.length hmem
      rw [ht] at hx
      simp [hm, hlt] at hx
    · rw [hf, Bool.and_false]
  · intro s d h
    unfold mkDestOverride
    rw [if_neg]
    simp [h]

/-- Witness for C6: `dest = src/q` is inside `src = s`, and the file
`s/q/f.txt` under it is not yielded. -/
theorem C6_dest_never_walked_witness :
    yielded (destMatchIgnored ["s"] ["s", "q"]) ["s"] ["s", "q", "f.txt"] = false :=
  (C6_dest_never_walked ["s"] ["s", "q"] ["s", "q", "f.txt"] (by decide)
    (by decide) (by decide)).1

/-! ## C8: timestamp formatting never fails a file -/

theorem digitChar_isDigit (n : Nat) : (digitChar n).isDigit = true := by
  have h : n % 10 < 10 := Nat.mod_lt _ (by omega)
  have hall : ∀ m, m < 10 → (Char.ofNat (48 + m)).isDigit = true := by decide
  exact hall (n % 10) h

theorem ymdhmShape_fmt (d : DateTimeL) (hy : d.y < 10000) :
    ymdhmShape (fmtYmdHm d).data = true := by
  unfold fmtYmdHm fmtY
  rw [if_pos hy]
  show ymdhmShape (fmt4 d.y ++ '-' :: fmt2 d.mo ++ '-' :: fmt2 d.dy ++
    ' ' :: fmt2 d.hh ++ ':' :: fmt2 d.mi) = true
  unfold fmt4 fmt2
  simp [ymdhmShape, digitChar_isDigit]

/-- C8: whenever the chrono conversion of an instant to local time is not
ambiguous (converting a UTC instant to a single local time never is),
`format_time` returns `Ok`: an unrepresentable timestamp degrades to the
fixed placeholder `"Invalid date    "` instead of failing, and a
representable one renders as `YYYY-MM-DD HH:MM` (16 characters, digits and
fixed separators, for years below 10000). -/
theorem C8_format_time_total (conv : Int → LocalResult) (ts : Int)
    (h : ∀ a b, conv ts ≠ LocalResult.ambiguous a b) :
    ∃ s, format_time conv ts = Except.ok s ∧
      (conv ts = LocalResult.none → s = "Invalid date    ") ∧
      (∀ d, conv ts = LocalResult.single d → s = fmtYmdHm d) ∧
      (∀ d, conv ts = LocalResult.single d → d.y < 10000 →
        ymdhmShape s.data = true) := by
  cases hc : conv ts with
  | none =>
    refine ⟨"Invalid date    ", by simp [format_time, hc], fun _ => rfl, ?_, ?_⟩
    · intro d hd
      exact LocalResult.noConfusion hd
    · intro d hd
      exact LocalResult.noConfusion hd
  | single d0 =>
    refine ⟨fmtYmdHm d0, by simp [format_time, hc], ?_, ?_, ?_⟩
    · intro hd
      exact LocalResult.noConfusion hd
    · intro d hd
      injection hd with h3
      rw [h3]
    · intro d hd hy
      injection hd with h3
      rw [h3]
      exact ymdhmShape_fmt d hy
  | ambiguous a b => exact absurd hc (h a b)

/-- Witness for C8 at a concrete conversion and timestamp. -/
theorem C8_format_time_total_witness :
    (∀ a b, conv0 0 ≠ LocalResult.ambiguous a b) ∧
    ∃ s, format_time conv0 0 = Except.ok s ∧
      (conv0 0 = LocalResult.none → s = "Invalid date    ") ∧
      (∀ d, conv0 0 = LocalResult.single d → s = fmtYmdHm d) ∧
      (∀ d, conv0 0 = LocalResult.single d → d.y < 10000 →
        ymdhmShape s.data = true) :=
  ⟨fun _ _ h2 => LocalResult.noConfusion h2,
   C8_format_time_total conv0 0 (fun _ _ h2 => LocalResult.noConfusion h2)⟩

end Cleanup
